import Mathlib

/-!
Verification development for the EC2 cost-canary Lambda
(`src/bin/costCanary.ts`).  The handler enumerates tagged running
instances, counts them by instance type, resolves an hourly USD rate per
distinct type from the pricing catalog, joins prices back onto the
instances, computes per-instance accrued cost from the launch time, sums,
rounds with `toFixed(2)`, and publishes a single CloudWatch datapoint.

Numbers are modelled by `ℚ` (an idealisation of IEEE doubles); the JS
value `NaN` / `undefined` flowing through arithmetic is modelled by
`Option ℚ` with `none` for the non-numeric case.  Timestamps are `Int`
milliseconds since the epoch, as returned by `Date.prototype.getTime`.
-/

namespace CostCanary

/-- A JSON value, as produced by `JSON.parse` of a pricing document.
Objects keep their fields in insertion order, which is the order
`JSON.stringify` visits them (pricing-document keys are not array
indices, so the JS integer-key reordering never applies). -/
inductive JVal where
  | null
  | bool (b : Bool)
  | num (q : ℚ)
  | str (s : String)
  | arr (elems : List JVal)
  | obj (fields : List (String × JVal))

/-- JS truthiness of a value (`NaN` never occurs inside a parsed
pricing document, so `num` covers only finite numbers). -/
def truthy : JVal → Bool
  | .null => false
  | .bool b => b
  | .num q => decide (q ≠ 0)
  | .str s => decide (s ≠ "")
  | .arr _ => true
  | .obj _ => true

/-- JS property access `v[k]` for a string key: `some` on an object
that has the key (first binding; JS objects have unique keys), and
`undefined` (`none`) on every other value. -/
def getProp (v : JVal) (k : String) : Option JVal :=
  match v with
  | .obj fields => (fields.find? (fun f => decide (f.1 = k))).map Prod.snd
  | _ => none

/-- The guard `nestedValue && nestedValue[keyToFind]` of the
`JSON.stringify` replacer in `findPrice`: the node is an object whose
`k` property is truthy.  (A value with a `some` property is an object,
hence itself truthy.) -/
def matchesKey (v : JVal) (k : String) : Bool :=
  match getProp v k with
  | some u => truthy u
  | none => false

mutual
/-- The replacer of `findPrice` run over `v` starting from accumulator
`acc`: `JSON.stringify` visits `v` first and then its children in
key-insertion / index order, and the replacer overwrites `foundObj`
at every node matching the key.  Returns the final `foundObj`. -/
def findAcc (k : String) : JVal → Option JVal → Option JVal
  | .arr xs, acc => findAccList k xs (if matchesKey (.arr xs) k then some (.arr xs) else acc)
  | .obj fs, acc => findAccFields k fs (if matchesKey (.obj fs) k then some (.obj fs) else acc)
  | v, acc => if matchesKey v k then some v else acc

/-- `findAcc` folded over the elements of an array, left to right. -/
def findAccList (k : String) : List JVal → Option JVal → Option JVal
  | [], acc => acc
  | x :: xs, acc => findAccList k xs (findAcc k x acc)

/-- `findAcc` folded over the fields of an object, in insertion order. -/
def findAccFields (k : String) : List (String × JVal) → Option JVal → Option JVal
  | [], acc => acc
  | f :: fs, acc => findAccFields k fs (findAcc k f.2 acc)
end

/-- `findPrice` from `costCanary.ts`: runs the stringify replacer over
the whole document and returns `foundObj?.USD`. -/
def findPrice (entireObj : JVal) (keyToFind : String) : Option JVal :=
  (findAcc keyToFind entireObj none).bind (fun foundObj => getProp foundObj "USD")

mutual
/-- The list of nodes of a document in the order the `JSON.stringify`
replacer visits them: each node before its children, object fields in
insertion order, array elements by index. -/
def preorder : JVal → List JVal
  | .arr xs => .arr xs :: preorderList xs
  | .obj fs => .obj fs :: preorderFields fs
  | v => [v]

/-- `preorder` of each element of an array, concatenated in index order. -/
def preorderList : List JVal → List JVal
  | [] => []
  | x :: xs => preorder x ++ preorderList xs

/-- `preorder` of each field value of an object, in insertion order. -/
def preorderFields : List (String × JVal) → List JVal
  | [] => []
  | f :: fs => preorder f.2 ++ preorderFields fs
end

/-- First-some choice on options (`x` wins when present). -/
def oor {α : Type _} : Option α → Option α → Option α
  | some x, _ => some x
  | none, y => y

/-- The last node, in replacer visiting order, whose `k` property is
truthy — the declarative description of what `findAcc` accumulates. -/
def lastMatch (v : JVal) (k : String) : Option JVal :=
  (preorder v).reverse.find? (fun o => matchesKey o k)

/-- `lastMatch` over the node sequence of an array's elements. -/
def lastMatchList (xs : List JVal) (k : String) : Option JVal :=
  (preorderList xs).reverse.find? (fun o => matchesKey o k)

/-- `lastMatch` over the node sequence of an object's field values. -/
def lastMatchFields (fs : List (String × JVal)) (k : String) : Option JVal :=
  (preorderFields fs).reverse.find? (fun o => matchesKey o k)

/-- Modelled from the spec's words for §4.3: take the FIRST node in
depth-first, key-insertion order whose currency key is present, and
return its rate value.  Stated only to compare with the source's
`findPrice`. -/
def specFindPriceFirst (entireObj : JVal) (keyToFind : String) : Option JVal :=
  ((preorder entireObj).find? (fun o => matchesKey o keyToFind)).bind
    (fun foundObj => getProp foundObj "USD")

/-- The `"USD"` property of the node is absent or falsy (empty string,
zero, `null`, `false`). -/
def falsyUSD (o : JVal) : Bool :=
  match getProp o "USD" with
  | some u => !(truthy u)
  | none => true

/-- An arbitrarily nested JS array over elements of type `α`:
either a non-array element or an array of such values. -/
inductive Nested (α : Type _) where
  | leaf (a : α)
  | arr (xs : List (Nested α))

mutual
/-- The `reduce` loop of `flattenArray` with its accumulator explicit:
the recursive `flattenArray(b)` of the source is the same loop
restarted on `b` with an empty accumulator. -/
def flattenFold {α : Type _} : List α → List (Nested α) → List α
  | a, [] => a
  | a, b :: rest => flattenFold (flattenConcat a b) rest

/-- One `reduce` step: `a.concat(Array.isArray(b) ? flattenArray(b) : b)`. -/
def flattenConcat {α : Type _} : List α → Nested α → List α
  | a, .leaf x => a ++ [x]
  | a, .arr xs => a ++ flattenFold [] xs
end

/-- `flattenArray` from `costCanary.ts`:
`ary.reduce((a, b) => a.concat(Array.isArray(b) ? flattenArray(b) : b), [])`. -/
def flattenArray {α : Type _} (ary : List (Nested α)) : List α :=
  flattenFold [] ary

mutual
/-- The left-to-right depth-first sequence of non-array elements of a
nested array — the specification-side description of flattening. -/
def dfLeaves {α : Type _} : Nested α → List α
  | .leaf a => [a]
  | .arr xs => dfLeavesList xs

/-- `dfLeaves` of each element, concatenated left to right. -/
def dfLeavesList {α : Type _} : List (Nested α) → List α
  | [] => []
  | x :: xs => dfLeaves x ++ dfLeavesList xs
end

/-- An EC2 instance as consumed by the handler: only the fields the
pipeline reads (`InstanceId` for identification, `InstanceType`,
`LaunchTime` in epoch milliseconds). -/
structure EC2Instance where
  instanceId : String
  instanceType : String
  launchTime : Int
deriving DecidableEq

/-- One `describeInstances` response: reservations, each holding its
instances, plus the pagination token for the next page when one exists. -/
structure DescribeResponse where
  reservations : List (List EC2Instance)
  nextToken : Option Nat

/-- The provider's pagination contract for `describeInstances`: the
matching instances live on successive pages; a call with no token
returns page 0, and each response carries the token of the next page
until the pages are exhausted. -/
def describeInstances (pages : List (List (List EC2Instance)))
    (token : Option Nat) : DescribeResponse :=
  let i := token.getD 0
  { reservations := pages.getD i []
    nextToken := if i + 1 < pages.length then some (i + 1) else none }

/-- The enumeration step of the handler: ONE `describeInstances` call
(no token loop), `Reservations.map(r => r.Instances.map(i => i))`,
then `flattenArray`. -/
def enumerate (pages : List (List (List EC2Instance))) : List EC2Instance :=
  let response := (describeInstances pages none).reservations.map
    (fun reservation => Nested.arr (reservation.map Nested.leaf))
  flattenArray response

/-- Every matching instance on every page of the provider's paginated
result, in provider-returned order. -/
def allInstances (pages : List (List (List EC2Instance))) : List EC2Instance :=
  (pages.map (fun page => page.flatten)).flatten

/-- One iteration of the `instanceCountByType` loop:
`instance.InstanceType in obj ? obj[type]++ : obj[type] = 1`, on a JS
object modelled as an insertion-ordered association list. -/
def countStep (acc : List (String × Nat)) (i : EC2Instance) : List (String × Nat) :=
  if acc.any (fun p => decide (p.1 = i.instanceType)) then
    acc.map (fun p => if p.1 = i.instanceType then (p.1, p.2 + 1) else p)
  else acc ++ [(i.instanceType, 1)]

/-- The `instanceCountByType` object after the `forEach` over the
instances. -/
def instanceCountByType (instances : List EC2Instance) : List (String × Nat) :=
  instances.foldl countStep []

/-- The pricing-catalog queries the handler issues: the `for … in`
loop over `instanceCountByType` performs one `getProducts` call per
key, in key order. -/
def pricingQueries (instances : List EC2Instance) : List String :=
  (instanceCountByType instances).map Prod.fst

/-- Decimal digits of a string as a natural number; `none` when a
non-digit occurs.  The empty string yields 0 (its callers decide
whether that is allowed). -/
def digitsVal (l : List Char) : Option ℕ :=
  l.foldl
    (fun acc c =>
      acc.bind (fun n => if c.isDigit then some (10 * n + (c.toNat - 48)) else none))
    (some 0)

/-- Split a character list at every `'.'` (the pieces of
`body.split('.')`). -/
def splitDot : List Char → List (List Char)
  | [] => [[]]
  | c :: cs =>
    if c = '.' then [] :: splitDot cs
    else
      match splitDot cs with
      | p :: ps => (c :: p) :: ps
      | [] => [[c]]

/-- JS `ToNumber` on a string, restricted to plain decimal literals
with an optional sign and fraction part (`""` is 0; whitespace and
exponent forms, which never occur in pricing rates, are not modelled
and yield `none` = `NaN`). -/
def parseDec (s : String) : Option ℚ :=
  match s.toList with
  | [] => some 0
  | l =>
    let sign : ℚ := match l with | '-' :: _ => -1 | _ => 1
    let body := match l with | '-' :: rest => rest | _ => l
    match splitDot body with
    | [ip] =>
      if ip = [] then none
      else (digitsVal ip).map (fun n => sign * (n : ℚ))
    | [ip, fp] =>
      if ip = [] ∧ fp = [] then none
      else
        match digitsVal ip, digitsVal fp with
        | some n, some m => some (sign * ((n : ℚ) + (m : ℚ) / (10 : ℚ) ^ fp.length))
        | _, _ => none
    | _ => none

/-- JS `ToNumber` on a JSON value (as triggered by `instance.Price /
60 / 60`): numbers pass through, strings parse as decimals, `null` and
booleans coerce numerically, arrays coerce through their single
element, everything else is `NaN` (`none`). -/
def jsToNumber : JVal → Option ℚ
  | .num q => some q
  | .str s => parseDec s
  | .null => some 0
  | .bool b => some (if b then 1 else 0)
  | .arr [] => some 0
  | .arr [x] => jsToNumber x
  | .arr (_ :: _ :: _) => none
  | .obj _ => none

/-- JS `ToNumber` on a possibly-`undefined` value: `undefined / 60` is
`NaN`. -/
def toNumberOpt (o : Option JVal) : Option ℚ :=
  o.bind jsToNumber

/-- `timeDifference` from `costCanary.ts`:
`Math.floor((date2.getTime() - date1.getTime()) / 1000)`, dates in
epoch milliseconds. -/
def timeDifference (date1 date2 : Int) : Int :=
  Int.fdiv (date2 - date1) 1000

/-- The per-instance expression of `totalCostPerInstanceFromLaunch`:
`(instance.Price / 60 / 60) * timeDifference(new Date(launch), new
Date())`, with `NaN` (from an `undefined` or non-numeric price)
propagating through the arithmetic. -/
def accruedCost (price : Option ℚ) (launchTime now : Int) : Option ℚ :=
  price.map (fun q => q / 60 / 60 * ((timeDifference launchTime now : Int) : ℚ))

/-- Modelled from the spec's words for §4.4: `perSecondRate =
hourlyRateUSD / 3600`, `elapsedSeconds = max(0, now - launchTime)`,
`accruedCostUSD = perSecondRate * elapsedSeconds`.  Stated only to
compare with the source's computation. -/
def specAccruedCost (hourlyRateUSD : ℚ) (launchTime now : Int) : ℚ :=
  hourlyRateUSD / 3600 * ((max 0 (Int.fdiv (now - launchTime) 1000) : Int) : ℚ)

/-- JS addition with `NaN` propagation. -/
def nadd : Option ℚ → Option ℚ → Option ℚ
  | some a, some b => some (a + b)
  | _, _ => none

/-- The `reduce((acc, v) => acc + v, 0)` over the per-instance costs. -/
def totalCostRaw (costs : List (Option ℚ)) : Option ℚ :=
  costs.foldl nadd (some 0)

/-- `Number.prototype.toFixed(2)` read back as a number (idealised
over `ℚ`): scale the magnitude by 100, round half towards `+∞` (ties
pick the larger integer, per the ECMAScript `toFixed` algorithm, which
rounds the magnitude and re-attaches the sign), unscale. -/
def toFixed2 (q : ℚ) : ℚ :=
  (if q < 0 then -1 else 1) * ((⌊100 * |q| + 1 / 2⌋ : ℤ) : ℚ) / 100

/-- The runtime failures the tail of the handler can raise, and which
abort the invocation before `putMetricData`. -/
inductive JsError where
  | typeError
  | jsonParseError
deriving DecidableEq

instance {ε α : Type _} [DecidableEq ε] [DecidableEq α] : DecidableEq (Except ε α) := fun a b =>
  match a, b with
  | .error x, .error y =>
    if h : x = y then isTrue (congrArg Except.error h)
    else isFalse (fun he => h (Except.error.inj he))
  | .ok x, .ok y =>
    if h : x = y then isTrue (congrArg Except.ok h)
    else isFalse (fun he => h (Except.ok.inj he))
  | .error _, .ok _ => isFalse (fun he => Except.noConfusion he)
  | .ok _, .error _ => isFalse (fun he => Except.noConfusion he)

/-- The final `JSON.parse(totalCost)` of the stringified total: a
finite total parses back as its 2-decimal rounding; a `NaN` total
stringifies to `"NaN"`, which `JSON.parse` rejects. -/
def publishValue : Option ℚ → Except JsError ℚ
  | none => .error .jsonParseError
  | some q => .ok (toFixed2 q)

/-- How many `putMetricData` calls an invocation performs: the publish
is the handler's last step, so exactly one on success and zero when
any error aborts the invocation first. -/
def publishCount (r : Except JsError ℚ) : Nat :=
  match r with
  | .ok _ => 1
  | .error _ => 0

/-- The `instancesWithPrices` map: for each instance, look up its type
in `priceList` with `find` and read `.price` off the result; reading a
property of an unsuccessful `find` (JS `undefined`) throws a
`TypeError`. -/
def joinPrices (priceList : List (String × Option JVal)) :
    List EC2Instance → Except JsError (List (EC2Instance × Option JVal))
  | [] => .ok []
  | i :: rest =>
    match priceList.find? (fun p => decide (p.1 = i.instanceType)) with
    | none => .error .typeError
    | some p => (joinPrices priceList rest).map (fun l => (i, p.2) :: l)

/-- The handler pipeline of `costCanary.ts`, parameterised by the
pricing catalog (`getProducts` per instance type, returning the
`PriceList` document), the current time, and the provider's paginated
`describeInstances` data.  Returns the value of the single published
datapoint, or the error that aborted the invocation. -/
def handler (getProducts : String → JVal) (now : Int)
    (pages : List (List (List EC2Instance))) : Except JsError ℚ :=
  let instances := enumerate pages
  let priceList := (instanceCountByType instances).map
    (fun c => (c.1, findPrice (getProducts c.1) "USD"))
  match joinPrices priceList instances with
  | .error e => .error e
  | .ok instancesWithPrices =>
    let totalCostPerInstanceFromLaunch := instancesWithPrices.map
      (fun ip => accruedCost (toNumberOpt ip.2) ip.1.launchTime now)
    publishValue (totalCostRaw totalCostPerInstanceFromLaunch)

/-- A document holding two distinct USD-keyed sub-objects with
different rates (the first one in traversal order carries `"1"`). -/
def doc1 : JVal :=
  .obj [("a", .obj [("USD", .str "1")]), ("b", .obj [("USD", .str "2")])]

/-- A document in which every `"USD"` key maps to a falsy value. -/
def doc10 : JVal :=
  .obj [("USD", .str ""), ("x", .obj [("USD", .num 0)]), ("y", .obj [("USD", .null)])]

/-- A pricing document whose USD rate is 3600 (one dollar per second),
wrapped the way `getProducts` returns it. -/
def usdDoc3600 : JVal := .obj [("USD", .num 3600)]

/-- A pricing catalog answering every instance type with `usdDoc3600`. -/
def catalog3600 : String → JVal := fun _ => usdDoc3600

/-- A pricing document with no `"USD"` key anywhere. -/
def noUsdDoc : JVal := .obj [("terms", .str "OnDemand")]

/-- A pricing catalog in which no instance type has a resolvable rate. -/
def catalogEmpty : String → JVal := fun _ => noUsdDoc

/-- An instance launched at the epoch. -/
def instA : EC2Instance := ⟨"i-0a", "t3.micro", 0⟩

/-- A second, distinct instance of the same type. -/
def instB : EC2Instance := ⟨"i-0b", "t3.micro", 0⟩

/-- An instance whose reported launch time (1000 ms) lies after the
evaluation time used with it (0 ms). -/
def instFuture : EC2Instance := ⟨"i-0f", "m5.large", 1000⟩

/-- A two-page `describeInstances` result: `instA` on page 0, `instB`
on page 1. -/
def pagedFleet : List (List (List EC2Instance)) := [[[instA]], [[instB]]]

/-- A single-page fleet holding only the future-launched instance. -/
def futureFleet : List (List (List EC2Instance)) := [[[instFuture]]]

/-- A single-page fleet holding one reservation with one instance. -/
def singleFleet : List (List (List EC2Instance)) := [[[instA]]]

/-- Three instances over two distinct types, `"t3.micro"` repeated. -/
def dupTypeInstances : List EC2Instance :=
  [⟨"i-1", "t3.micro", 0⟩, ⟨"i-2", "t3.micro", 0⟩, ⟨"i-3", "c5.large", 0⟩]

theorem oor_none_right {α : Type _} (x : Option α) : oor x none = x := by
  cases x <;> rfl

theorem oor_assoc {α : Type _} (a b c : Option α) :
    oor (oor a b) c = oor a (oor b c) := by
  cases a <;> rfl

theorem find?_append_oor {α : Type _} (l₁ l₂ : List α) (p : α → Bool) :
    (l₁ ++ l₂).find? p = oor (l₁.find? p) (l₂.find? p) := by
  induction l₁ with
  | nil => simp [oor]
  | cons a l ih =>
    cases h : p a with
    | true => simp [List.find?_cons_of_pos _ h, oor]
    | false =>
      have h' : ¬p a = true := by simp [h]
      simp [List.find?_cons_of_neg _ h', ih]

theorem find?_singleton {α : Type _} (x : α) (p : α → Bool) :
    [x].find? p = if p x then some x else none := by
  cases h : p x <;> simp [List.find?_cons_of_pos, List.find?_cons_of_neg, h]

mutual
theorem findAcc_eq (k : String) :
    (v : JVal) → (acc : Option JVal) → findAcc k v acc = oor (lastMatch v k) acc
  | .null, _ => rfl
  | .bool _, _ => rfl
  | .num _, _ => rfl
  | .str _, _ => rfl
  | .arr xs, acc => by
    rw [show findAcc k (.arr xs) acc = findAccList k xs acc from rfl]
    rw [findAccList_eq k xs acc]
    have h : lastMatch (.arr xs) k = lastMatchList xs k := by
      unfold lastMatch lastMatchList
      rw [show preorder (.arr xs) = .arr xs :: preorderList xs from rfl]
      rw [List.reverse_cons, find?_append_oor, find?_singleton]
      rw [show matchesKey (.arr xs) k = false from rfl]
      exact oor_none_right _
    rw [h]
  | .obj fs, acc => by
    rw [show findAcc k (.obj fs) acc
        = findAccFields k fs (if matchesKey (.obj fs) k then some (.obj fs) else acc) from rfl]
    rw [findAccFields_eq k fs _]
    have h : lastMatch (.obj fs) k
        = oor (lastMatchFields fs k)
            (if matchesKey (.obj fs) k then some (.obj fs) else none) := by
      unfold lastMatch lastMatchFields
      rw [show preorder (.obj fs) = .obj fs :: preorderFields fs from rfl]
      rw [List.reverse_cons, find?_append_oor, find?_singleton]
    rw [h, oor_assoc]
    by_cases hm : matchesKey (.obj fs) k <;> simp [hm, oor]

theorem findAccList_eq (k : String) :
    (xs : List JVal) → (acc : Option JVal) → findAccList k xs acc = oor (lastMatchList xs k) acc
  | [], _ => rfl
  | x :: xs, acc => by
    rw [show findAccList k (x :: xs) acc = findAccList k xs (findAcc k x acc) from rfl]
    rw [findAccList_eq k xs _, findAcc_eq k x acc, ← oor_assoc]
    have h : oor (lastMatchList xs k) (lastMatch x k) = lastMatchList (x :: xs) k := by
      unfold lastMatchList lastMatch
      rw [show preorderList (x :: xs) = preorder x ++ preorderList xs from rfl]
      rw [List.reverse_append, find?_append_oor]
    rw [h]

theorem findAccFields_eq (k : String) :
    (fs : List (String × JVal)) → (acc : Option JVal) →
      findAccFields k fs acc = oor (lastMatchFields fs k) acc
  | [], _ => rfl
  | f :: fs, acc => by
    rw [show findAccFields k (f :: fs) acc = findAccFields k fs (findAcc k f.2 acc) from rfl]
    rw [findAccFields_eq k fs _, findAcc_eq k f.2 acc, ← oor_assoc]
    have h : oor (lastMatchFields fs k) (lastMatch f.2 k) = lastMatchFields (f :: fs) k := by
      unfold lastMatchFields lastMatch
      rw [show preorderFields (f :: fs) = preorder f.2 ++ preorderFields fs from rfl]
      rw [List.reverse_append, find?_append_oor]
    rw [h]
end

theorem findPrice_eq_lastMatch (v : JVal) (k : String) :
    findPrice v k = (lastMatch v k).bind (fun o => getProp o "USD") := by
  unfold findPrice
  rw [findAcc_eq, oor_none_right]

theorem matchesKey_false_of_falsy {o : JVal} (h : falsyUSD o = true) :
    matchesKey o "USD" = false := by
  unfold falsyUSD at h
  unfold matchesKey
  cases hg : getProp o "USD" with
  | none => rfl
  | some u => rw [hg] at h; simpa using h

/-- C1 (corrected): `findPrice` performs the deterministic depth-first
`JSON.stringify` traversal (object keys in insertion order, arrays by
index) but, because the replacer overwrites `foundObj` on every match,
it returns the rate value of the LAST encountered object whose
currency-key value is truthy — not the first. -/
theorem findPrice_returns_last_match (v : JVal) (k : String) :
    findPrice v k = (lastMatch v k).bind (fun o => getProp o "USD") :=
  findPrice_eq_lastMatch v k

/-- C1 counterexample: on a document holding two distinct USD-keyed
sub-objects with different rates, `findPrice` returns the second rate
`"2"`, while the spec's first-match extraction returns `"1"`. -/
theorem findPrice_first_vs_last_counterexample :
    findPrice doc1 "USD" = some (.str "2")
    ∧ specFindPriceFirst doc1 "USD" = some (.str "1")
    ∧ findPrice doc1 "USD" ≠ specFindPriceFirst doc1 "USD" := by
  refine ⟨rfl, rfl, ?_⟩
  rw [show findPrice doc1 "USD" = some (.str "2") from rfl,
    show specFindPriceFirst doc1 "USD" = some (.str "1") from rfl]
  simp

/-- C10: a document in which every object's `"USD"` value is falsy
makes `findPrice` return `undefined` rather than such a value, and the
replacer never selects an object whose `"USD"` value is falsy. -/
theorem findPrice_falsy_is_absent :
    (∀ v : JVal, (∀ o ∈ preorder v, falsyUSD o = true) → findPrice v "USD" = none)
    ∧ ∀ (v o : JVal), findAcc "USD" v none = some o → matchesKey o "USD" = true := by
  constructor
  · intro v hv
    rw [findPrice_eq_lastMatch]
    have h : lastMatch v "USD" = none := by
      unfold lastMatch
      apply List.find?_eq_none.mpr
      intro o ho
      rw [matchesKey_false_of_falsy (hv o (List.mem_reverse.mp ho))]
      simp
    rw [h]
    rfl
  · intro v o h
    rw [findAcc_eq, oor_none_right] at h
    have h2 := List.find?_some h
    simpa using h2

/-- C10 witness: a document whose `"USD"` keys map to `""`, `0` and
`null` yields no price. -/
theorem findPrice_falsy_witness : findPrice doc10 "USD" = none :=
  findPrice_falsy_is_absent.1 doc10 (by decide)

mutual
theorem flattenFold_eq_leaves {α : Type _} :
    (a : List α) → (l : List (Nested α)) → flattenFold a l = a ++ dfLeavesList l
  | a, [] => by
    rw [show flattenFold a ([] : List (Nested α)) = a from rfl]
    rw [show dfLeavesList ([] : List (Nested α)) = [] from rfl]
    simp
  | a, b :: rest => by
    rw [show flattenFold a (b :: rest) = flattenFold (flattenConcat a b) rest from rfl]
    rw [flattenFold_eq_leaves (flattenConcat a b) rest, flattenConcat_eq_leaves a b]
    rw [show dfLeavesList (b :: rest) = dfLeaves b ++ dfLeavesList rest from rfl]
    simp

theorem flattenConcat_eq_leaves {α : Type _} :
    (a : List α) → (b : Nested α) → flattenConcat a b = a ++ dfLeaves b
  | _, .leaf _ => rfl
  | a, .arr xs => by
    rw [show flattenConcat a (.arr xs) = a ++ flattenFold [] xs from rfl]
    rw [flattenFold_eq_leaves [] xs]
    rw [show dfLeaves (Nested.arr xs) = dfLeavesList xs from rfl]
    simp
end

theorem flattenArray_eq_leaves {α : Type _} (l : List (Nested α)) :
    flattenArray l = dfLeavesList l := by
  unfold flattenArray
  rw [flattenFold_eq_leaves]
  simp

/-- C9: for every arbitrarily nested array, `flattenArray` returns
exactly the left-to-right depth-first sequence of its non-array
elements, preserving their relative order. -/
theorem flattenArray_depth_first {α : Type _} (l : List (Nested α)) :
    flattenArray l = dfLeavesList l :=
  flattenArray_eq_leaves l

theorem dfLeavesList_leaf_map {α : Type _} (r : List α) :
    dfLeavesList (r.map Nested.leaf) = r := by
  induction r with
  | nil => rfl
  | cons x xs ih => simp [dfLeavesList, dfLeaves, ih]

theorem flattenArray_two_level {α : Type _} (rs : List (List α)) :
    flattenArray (rs.map (fun r => Nested.arr (r.map Nested.leaf))) = rs.flatten := by
  rw [flattenArray_eq_leaves]
  induction rs with
  | nil => rfl
  | cons r rest ih => simp [dfLeavesList, dfLeaves, dfLeavesList_leaf_map, ih]

/-- C5 (corrected, amended): the enumeration step issues exactly one
`describeInstances` call and never follows the pagination token, so it
returns precisely the flattening of the FIRST page's reservations —
instances on later pages are dropped. -/
theorem enumerate_first_page_only (pages : List (List (List EC2Instance))) :
    enumerate pages = (pages.getD 0 []).flatten := by
  show flattenArray ((pages.getD 0 []).map (fun r => Nested.arr (r.map Nested.leaf)))
    = (pages.getD 0 []).flatten
  exact flattenArray_two_level _

/-- C5 counterexample: with two provider pages, the instance on the
second page is a matching instance of the paginated result but is
missing from the enumerated sequence. -/
theorem enumerate_drops_later_pages :
    instB ∈ allInstances pagedFleet ∧ instB ∉ enumerate pagedFleet :=
  ⟨by decide, by decide⟩

theorem countStep_keys (acc : List (String × Nat)) (i : EC2Instance) :
    (countStep acc i).map Prod.fst
      = if i.instanceType ∈ acc.map Prod.fst then acc.map Prod.fst
        else acc.map Prod.fst ++ [i.instanceType] := by
  unfold countStep
  by_cases h : i.instanceType ∈ acc.map Prod.fst
  · have hany : acc.any (fun p => decide (p.1 = i.instanceType)) = true := by
      rw [List.any_eq_true]
      obtain ⟨p, hp, hpeq⟩ := List.mem_map.mp h
      exact ⟨p, hp, by simp [hpeq]⟩
    simp only [hany, if_true, if_pos h]
    rw [List.map_map]
    apply List.map_congr_left
    intro p _
    by_cases hc : p.1 = i.instanceType <;> simp [hc]
  · have hany : acc.any (fun p => decide (p.1 = i.instanceType)) = false := by
      rw [List.any_eq_false]
      intro p hp
      simp only [decide_eq_true_eq]
      intro heq
      exact h (List.mem_map.mpr ⟨p, hp, heq⟩)
    simp only [hany, Bool.false_eq_true, if_false, if_neg h]
    simp

theorem mem_keys_foldl (l : List EC2Instance) :
    ∀ (acc : List (String × Nat)) (t : String),
      t ∈ (l.foldl countStep acc).map Prod.fst
        ↔ t ∈ acc.map Prod.fst ∨ t ∈ l.map EC2Instance.instanceType := by
  induction l with
  | nil => intro acc t; simp
  | cons i l ih =>
    intro acc t
    rw [List.foldl_cons, ih, countStep_keys]
    by_cases h : i.instanceType ∈ acc.map Prod.fst
    · rw [if_pos h]
      simp only [List.map_cons, List.mem_cons]
      constructor
      · rintro (ha | hl)
        · exact Or.inl ha
        · exact Or.inr (Or.inr hl)
      · rintro (ha | heq | hl)
        · exact Or.inl ha
        · exact Or.inl (heq ▸ h)
        · exact Or.inr hl
    · rw [if_neg h]
      simp only [List.map_cons, List.mem_cons, List.mem_append, List.mem_singleton]
      tauto

theorem nodup_keys_foldl (l : List EC2Instance) :
    ∀ acc : List (String × Nat), (acc.map Prod.fst).Nodup →
      ((l.foldl countStep acc).map Prod.fst).Nodup := by
  induction l with
  | nil => intro acc h; simpa using h
  | cons i l ih =>
    intro acc h
    rw [List.foldl_cons]
    apply ih
    rw [countStep_keys]
    by_cases hm : i.instanceType ∈ acc.map Prod.fst
    · rw [if_pos hm]; exact h
    · rw [if_neg hm]
      rw [List.nodup_append]
      refine ⟨h, List.nodup_singleton _, fun a ha hb => ?_⟩
      simp only [List.mem_singleton] at hb
      exact hm (hb ▸ ha)

/-- C6: deduplication produces exactly the distinct `instanceType`
values present in the input — no omissions, no extras, no repeats —
and consequently exactly one pricing-catalog query is issued per
distinct type. -/
theorem dedupe_exact_one_query_per_type (instances : List EC2Instance) :
    (pricingQueries instances).Nodup
    ∧ (∀ t, t ∈ pricingQueries instances ↔ t ∈ instances.map EC2Instance.instanceType)
    ∧ ∀ t, t ∈ instances.map EC2Instance.instanceType →
        (pricingQueries instances).count t = 1 := by
  have hmem : ∀ t, t ∈ pricingQueries instances
      ↔ t ∈ instances.map EC2Instance.instanceType := by
    intro t
    unfold pricingQueries instanceCountByType
    rw [mem_keys_foldl]
    simp
  have hnodup : (pricingQueries instances).Nodup :=
    nodup_keys_foldl instances [] (by simp)
  exact ⟨hnodup, hmem, fun t ht =>
    List.count_eq_one_of_mem hnodup ((hmem t).mpr ht)⟩

/-- C6 witness: three instances over two distinct types cause exactly
one query for the repeated type. -/
theorem dedupe_witness : (pricingQueries dupTypeInstances).count "t3.micro" = 1 :=
  (dedupe_exact_one_query_per_type dupTypeInstances).2.2 "t3.micro" (by decide)

theorem foldl_nadd_none_acc (cs : List (Option ℚ)) : cs.foldl nadd none = none := by
  induction cs with
  | nil => rfl
  | cons c cs ih =>
    rw [List.foldl_cons, show nadd none c = none by cases c <;> rfl]
    exact ih

theorem foldl_nadd_mem_none (cs : List (Option ℚ)) :
    ∀ acc : Option ℚ, none ∈ cs → cs.foldl nadd acc = none := by
  induction cs with
  | nil => intro acc h; simp at h
  | cons c cs ih =>
    intro acc h
    rw [List.foldl_cons]
    rcases List.mem_cons.mp h with hc | hm
    · rw [← hc, show nadd acc none = none by cases acc <;> rfl]
      exact foldl_nadd_none_acc cs
    · exact ih _ hm

theorem totalCostRaw_none {cs : List (Option ℚ)} (h : none ∈ cs) :
    totalCostRaw cs = none :=
  foldl_nadd_mem_none cs (some 0) h

theorem foldl_nadd_some_nonneg (cs : List (Option ℚ)) :
    ∀ a s : ℚ, (∀ x ∈ cs, ∀ c : ℚ, x = some c → 0 ≤ c) → 0 ≤ a →
      cs.foldl nadd (some a) = some s → 0 ≤ s := by
  induction cs with
  | nil =>
    intro a s _ ha h
    rw [List.foldl_nil] at h
    exact Option.some.inj h ▸ ha
  | cons c cs ih =>
    intro a s hmem ha h
    rw [List.foldl_cons] at h
    cases c with
    | none =>
      rw [show nadd (some a) none = none from rfl, foldl_nadd_none_acc] at h
      exact Option.noConfusion h
    | some c =>
      have hc : 0 ≤ c := hmem (some c) (List.mem_cons_self _ _) c rfl
      rw [show nadd (some a) (some c) = some (a + c) from rfl] at h
      exact ih (a + c) s (fun x hx => hmem x (List.mem_cons_of_mem _ hx)) (add_nonneg ha hc) h

theorem totalCostRaw_nonneg {cs : List (Option ℚ)} {s : ℚ}
    (hmem : ∀ x ∈ cs, ∀ c : ℚ, x = some c → 0 ≤ c)
    (h : totalCostRaw cs = some s) : 0 ≤ s :=
  foldl_nadd_some_nonneg cs 0 s hmem le_rfl h

theorem foldl_nadd_map_some (cs : List ℚ) :
    ∀ a : ℚ, (cs.map some).foldl nadd (some a) = some (a + cs.sum) := by
  induction cs with
  | nil => intro a; simp [nadd]
  | cons c cs ih =>
    intro a
    rw [List.map_cons, List.foldl_cons, show nadd (some a) (some c) = some (a + c) from rfl, ih]
    rw [List.sum_cons]
    congr 1
    ring

theorem priceList_find (counts : List (String × Nat)) (g : String → JVal) {t : String}
    (h : t ∈ counts.map Prod.fst) :
    (counts.map (fun c => (c.1, findPrice (g c.1) "USD"))).find?
        (fun p => decide (p.1 = t))
      = some (t, findPrice (g t) "USD") := by
  have hsome : ((counts.map (fun c => (c.1, findPrice (g c.1) "USD"))).find?
      (fun p => decide (p.1 = t))).isSome := by
    rw [List.find?_isSome]
    obtain ⟨c, hc, hceq⟩ := List.mem_map.mp h
    exact ⟨(c.1, findPrice (g c.1) "USD"), List.mem_map.mpr ⟨c, hc, rfl⟩, by simp [hceq]⟩
  obtain ⟨p, hp⟩ := Option.isSome_iff_exists.mp hsome
  have hpt : p.1 = t := by simpa using List.find?_some hp
  obtain ⟨c, _, hcp⟩ := List.mem_map.mp (List.mem_of_find?_eq_some hp)
  have hc1 : c.1 = t := by rw [← hpt, ← hcp]
  rw [hp, ← hcp, hc1]

theorem joinPrices_all_found (g : String → JVal) (counts : List (String × Nat)) :
    ∀ instances : List EC2Instance,
      (∀ i ∈ instances, i.instanceType ∈ counts.map Prod.fst) →
      joinPrices (counts.map fun c => (c.1, findPrice (g c.1) "USD")) instances
        = .ok (instances.map fun i => (i, findPrice (g i.instanceType) "USD")) := by
  intro instances
  induction instances with
  | nil => intro _; rfl
  | cons i rest ih =>
    intro h
    have hfind := priceList_find counts g (h i (List.mem_cons_self i rest))
    simp only [joinPrices]
    rw [hfind, ih (fun j hj => h j (List.mem_cons_of_mem _ hj))]
    rfl

theorem handler_eq (g : String → JVal) (now : Int)
    (pages : List (List (List EC2Instance))) :
    handler g now pages
      = publishValue (totalCostRaw ((enumerate pages).map
          (fun i => accruedCost (toNumberOpt (findPrice (g i.instanceType) "USD"))
            i.launchTime now))) := by
  have hmem : ∀ i ∈ enumerate pages,
      i.instanceType ∈ (instanceCountByType (enumerate pages)).map Prod.fst := by
    intro i hi
    unfold instanceCountByType
    exact (mem_keys_foldl _ [] _).mpr (Or.inr (List.mem_map.mpr ⟨i, hi, rfl⟩))
  simp only [handler]
  rw [joinPrices_all_found g _ _ hmem]
  show publishValue (totalCostRaw (((enumerate pages).map
      (fun i => (i, findPrice (g i.instanceType) "USD"))).map
      (fun ip => accruedCost (toNumberOpt ip.2) ip.1.launchTime now))) = _
  rw [List.map_map]
  rfl

/-- C4: an enumeration describing zero matching instances makes the
pipeline complete successfully with a published total of 0, and the
metric publisher is called exactly once, with value 0. -/
theorem handler_empty_fleet (g : String → JVal) (now : Int)
    (pages : List (List (List EC2Instance))) (h : enumerate pages = []) :
    handler g now pages = .ok 0 ∧ publishCount (handler g now pages) = 1 := by
  rw [handler_eq, h]
  constructor
  · show Except.ok (toFixed2 0) = Except.ok 0
    norm_num [toFixed2]
  · rfl

/-- C4 witness: the empty paginated fleet publishes 0 exactly once. -/
theorem handler_empty_fleet_witness :
    handler catalog3600 0 [] = .ok 0 ∧ publishCount (handler catalog3600 0 []) = 1 :=
  handler_empty_fleet catalog3600 0 [] rfl

/-- C3 (corrected, amended): when some enumerated instance's type has
no extractable price, the missing price is never treated as zero cost
and no metric is published — but the invocation aborts with the
JSON-parse failure of the stringified `NaN` total, an error that names
neither the offending instance nor its type. -/
theorem handler_missing_price (g : String → JVal) (now : Int)
    (pages : List (List (List EC2Instance))) (i : EC2Instance)
    (hi : i ∈ enumerate pages)
    (hp : findPrice (g i.instanceType) "USD" = none) :
    handler g now pages = .error .jsonParseError
    ∧ publishCount (handler g now pages) = 0 := by
  rw [handler_eq]
  have hnone : none ∈ (enumerate pages).map
      (fun i => accruedCost (toNumberOpt (findPrice (g i.instanceType) "USD"))
        i.launchTime now) :=
    List.mem_map.mpr ⟨i, hi, by rw [hp]; rfl⟩
  rw [totalCostRaw_none hnone]
  exact ⟨rfl, rfl⟩

/-- C3 witness: one instance whose catalog document has no USD key. -/
theorem handler_missing_price_witness :
    handler catalogEmpty 3600000 singleFleet = .error .jsonParseError
    ∧ publishCount (handler catalogEmpty 3600000 singleFleet) = 0 :=
  handler_missing_price catalogEmpty 3600000 singleFleet instA (by decide) rfl

/-- C3 counterexample: with a missing price the invocation fails with
the bare JSON-parse error — a failure that carries no instance or type
information, contradicting the claimed diagnostic error. -/
theorem handler_missing_price_counterexample :
    handler catalogEmpty 3600000 singleFleet = .error .jsonParseError := rfl

theorem toFixed2_nonneg {s : ℚ} (h : 0 ≤ s) : 0 ≤ toFixed2 s := by
  unfold toFixed2
  rw [if_neg (not_lt.mpr h), one_mul]
  apply div_nonneg _ (by norm_num)
  have hfl : (0 : ℤ) ≤ ⌊100 * |s| + 1 / 2⌋ := Int.floor_nonneg.mpr (by positivity)
  exact_mod_cast hfl

/-- C2 (corrected, amended): the code never clamps elapsed time, so
the published total is only guaranteed nonnegative when every reported
launch time is at or before the evaluation time (and every resolved
rate is nonnegative); under those hypotheses every published value is
`>= 0`. -/
theorem handler_total_nonneg (g : String → JVal) (now : Int)
    (pages : List (List (List EC2Instance)))
    (hlaunch : ∀ i ∈ enumerate pages, i.launchTime ≤ now)
    (hrate : ∀ t (q : ℚ), toNumberOpt (findPrice (g t) "USD") = some q → 0 ≤ q) :
    ∀ v, handler g now pages = .ok v → 0 ≤ v := by
  intro v hv
  rw [handler_eq] at hv
  cases htot : totalCostRaw ((enumerate pages).map
      (fun i => accruedCost (toNumberOpt (findPrice (g i.instanceType) "USD"))
        i.launchTime now)) with
  | none =>
    rw [htot] at hv
    exact absurd hv (by simp [publishValue])
  | some s =>
    rw [htot] at hv
    have hv' : toFixed2 s = v := Except.ok.inj hv
    have hs : 0 ≤ s := by
      apply totalCostRaw_nonneg _ htot
      intro x hx c hxc
      obtain ⟨i, hi, hix⟩ := List.mem_map.mp hx
      rw [← hix] at hxc
      unfold accruedCost at hxc
      cases hq : toNumberOpt (findPrice (g i.instanceType) "USD") with
      | none => rw [hq] at hxc; simp at hxc
      | some q =>
        rw [hq] at hxc
        have hcq : q / 60 / 60 * ((timeDifference i.launchTime now : Int) : ℚ) = c :=
          Option.some.inj hxc
        rw [← hcq]
        have hq0 : 0 ≤ q := hrate i.instanceType q hq
        have htd : (0 : Int) ≤ timeDifference i.launchTime now := by
          unfold timeDifference
          exact Int.fdiv_nonneg (sub_nonneg.mpr (hlaunch i hi)) (by norm_num)
        have htd' : (0 : ℚ) ≤ ((timeDifference i.launchTime now : Int) : ℚ) := by
          exact_mod_cast htd
        exact mul_nonneg (div_nonneg (div_nonneg hq0 (by norm_num)) (by norm_num)) htd'
    rw [← hv']
    exact toFixed2_nonneg hs

/-- C2 witness: one instance launched at the epoch, evaluated one hour
later at 3600 USD/h, publishes 3600 ≥ 0. -/
theorem handler_total_nonneg_witness : (0 : ℚ) ≤ 3600 :=
  handler_total_nonneg catalog3600 3600000 singleFleet
    (by decide)
    (fun t q hq => by
      have h36 : (3600 : ℚ) = q := Option.some.inj hq
      rw [← h36]
      norm_num)
    3600
    (by
      have h : handler catalog3600 3600000 singleFleet
          = .ok (toFixed2 (0 + (3600 : ℚ) / 60 / 60
              * ((timeDifference 0 3600000 : Int) : ℚ))) := rfl
      rw [h, show timeDifference 0 3600000 = (3600 : Int) by decide]
      norm_num [toFixed2])

/-- C2 counterexample: a launch time 1 s in the future with rate
3600 USD/h publishes the negative total −1, so the unconditional
`totalCostUSD >= 0` claim fails on the code. -/
theorem handler_negative_total_counterexample :
    handler catalog3600 0 futureFleet = .ok (-1) ∧ ¬(0 ≤ (-1 : ℚ)) := by
  constructor
  · have h : handler catalog3600 0 futureFleet
        = .ok (toFixed2 (0 + (3600 : ℚ) / 60 / 60
            * ((timeDifference 1000 0 : Int) : ℚ))) := rfl
    rw [h, show timeDifference 1000 0 = (-1 : Int) by decide]
    norm_num [toFixed2]
  · norm_num

/-- C7 (corrected, amended): for every resolved rate the per-instance
cost is `(rate / 3600) * floor((now − launchTime) / 1000)` with no
clamping of negative elapsed time; the spec's concrete example (rate
3.60, elapsed 3600 s) holds exactly. -/
theorem accruedCost_formula :
    (∀ (q : ℚ) (l n : Int),
      accruedCost (some q) l n = some (q / 3600 * ((Int.fdiv (n - l) 1000 : Int) : ℚ)))
    ∧ accruedCost (some (18 / 5)) 0 3600000 = some (18 / 5) := by
  constructor
  · intro q l n
    unfold accruedCost timeDifference
    show some (q / 60 / 60 * ((Int.fdiv (n - l) 1000 : Int) : ℚ)) = _
    congr 1
    rw [div_div]
    norm_num
  · unfold accruedCost timeDifference
    rw [show Int.fdiv (3600000 - 0) 1000 = (3600 : Int) by decide]
    show some ((18 : ℚ) / 5 / 60 / 60 * ((3600 : Int) : ℚ)) = some (18 / 5)
    norm_num

/-- C7 counterexample: for a launch time 1 s after `now` the code's
per-instance cost is −1 while the spec's clamped formula yields 0. -/
theorem accruedCost_clamp_counterexample :
    accruedCost (some 3600) 1000 0 = some (-1)
    ∧ specAccruedCost 3600 1000 0 = 0
    ∧ accruedCost (some 3600) 1000 0 ≠ some (specAccruedCost 3600 1000 0) := by
  have h1 : accruedCost (some 3600) 1000 0 = some (-1) := by
    unfold accruedCost timeDifference
    rw [show Int.fdiv (0 - 1000) 1000 = (-1 : Int) by decide]
    show some ((3600 : ℚ) / 60 / 60 * ((-1 : Int) : ℚ)) = some (-1)
    norm_num
  have h2 : specAccruedCost 3600 1000 0 = 0 := by
    unfold specAccruedCost
    rw [show max 0 (Int.fdiv (0 - 1000) 1000) = (0 : Int) by decide]
    norm_num
  refine ⟨h1, h2, ?_⟩
  rw [h1, h2]
  simp

theorem toFixed2_round_half (q : ℚ) :
    ∃ n : ℤ, toFixed2 q = (n : ℚ) / 100 ∧ |q - toFixed2 q| ≤ 1 / 200 := by
  by_cases h : q < 0
  · refine ⟨-⌊100 * |q| + 1 / 2⌋, ?_, ?_⟩
    · unfold toFixed2
      rw [if_pos h]
      push_cast
      ring
    · unfold toFixed2
      rw [if_pos h]
      have h1 : ((⌊100 * |q| + 1 / 2⌋ : ℤ) : ℚ) ≤ 100 * |q| + 1 / 2 := Int.floor_le _
      have h2 : 100 * |q| + 1 / 2 < ⌊100 * |q| + 1 / 2⌋ + 1 := Int.lt_floor_add_one _
      have habs : |q| = -q := abs_of_neg h
      rw [habs] at h1 h2 ⊢
      rw [abs_le]
      constructor <;> linarith
  · have h0 : 0 ≤ q := not_lt.mp h
    refine ⟨⌊100 * |q| + 1 / 2⌋, ?_, ?_⟩
    · unfold toFixed2
      rw [if_neg h]
      ring
    · unfold toFixed2
      rw [if_neg h]
      have h1 : ((⌊100 * |q| + 1 / 2⌋ : ℤ) : ℚ) ≤ 100 * |q| + 1 / 2 := Int.floor_le _
      have h2 : 100 * |q| + 1 / 2 < ⌊100 * |q| + 1 / 2⌋ + 1 := Int.lt_floor_add_one _
      have habs : |q| = q := abs_of_nonneg h0
      rw [habs] at h1 h2 ⊢
      rw [abs_le]
      constructor <;> linarith

/-- C8: the published total is `toFixed(2)` of the sum of the
per-instance costs — a deterministic rounding to exactly 2 decimal
places that moves the total by at most half a cent, with `.005`
boundary ties rounded per the ECMAScript round-half rule (away from
zero on the magnitude), e.g. 0.015 ↦ 0.02. -/
theorem published_total_rounding :
    (∀ cs : List ℚ, publishValue (totalCostRaw (cs.map some)) = .ok (toFixed2 cs.sum))
    ∧ (∀ q : ℚ, ∃ n : ℤ, toFixed2 q = (n : ℚ) / 100 ∧ |q - toFixed2 q| ≤ 1 / 200)
    ∧ toFixed2 (3 / 200) = 2 / 100 := by
  refine ⟨?_, toFixed2_round_half, ?_⟩
  · intro cs
    unfold totalCostRaw
    rw [foldl_nadd_map_some cs 0, zero_add]
    rfl
  · have habs : |(3 : ℚ) / 200| = 3 / 200 := by norm_num
    norm_num [toFixed2, habs]

end CostCanary
